import Mathlib

/-!
Verification of the hyperparameter-sweep logic of the detection notebook
`scenarios/detection/11_exploring_hyperparameters_on_azureml.ipynb`.

The notebook delegates grid sampling, run dispatch and best-run selection to
the AzureML Hyperdrive service, whose implementation is not part of this
repository; those components are modelled here from the specification
(section 4 of the design document).  The training script `train.py`, which the
notebook writes out verbatim, is embedded from its source: its argparse flag
table, the names it logs via `run.log`, and its metric extraction
`acc = float(detector.ap[-1])`.

Python float literals appearing in the notebook (learning rates, metric
values, threshold defaults) are embedded as rationals; the verified
properties use only equality and order comparisons of these constants, never
float rounding, so the rational embedding is exact for them.
-/

namespace HyperdriveSweep

/-! ### Parameter grid generation

Modelled from the spec: the Parameter Grid Generator takes a mapping from
parameter name to an ordered sequence of candidate values (in insertion
order) and enumerates the Cartesian product lexicographically over parameter
insertion order, the first parameter varying slowest. -/

/-- Modelled from the spec: a hyperparameter search space is an ordered
association list from parameter name to the ordered sequence of candidate
values (insertion order of the Python dict passed to
`GridParameterSampling`). -/
abbrev SearchSpace (α : Type) : Type := List (String × List α)

/-- Modelled from the spec: a grid point is one concrete assignment of a
single value to each parameter name. -/
abbrev GridPoint (α : Type) : Type := List (String × α)

/-- Modelled from the spec: the Parameter Grid Generator enumerates the
Cartesian product of the candidate value sequences, in deterministic
lexicographic order over parameter insertion order. -/
def gridPoints {α : Type} : SearchSpace α → List (GridPoint α)
  | [] => [[]]
  | (n, vs) :: rest =>
      vs.flatMap (fun v => (gridPoints rest).map (fun gp => (n, v) :: gp))

/-- The notebook's learning-rate candidates
`LEARNING_RATES = [1e-4, 3e-4, 1e-3, 3e-3, 1e-2]`, as exact rationals. -/
def LEARNING_RATES : List ℚ := [1/10000, 3/10000, 1/1000, 3/1000, 1/100]

/-- The notebook's image-size candidates `IM_MAX_SIZES = [600]`. -/
def IM_MAX_SIZES : List ℚ := [600]

/-- The search space the notebook passes to `GridParameterSampling`:
`{"--learning_rate": choice(LEARNING_RATES), "--max_size": choice(IM_MAX_SIZES)}`. -/
def notebookSearchSpace : SearchSpace ℚ :=
  [("--learning_rate", LEARNING_RATES), ("--max_size", IM_MAX_SIZES)]

theorem gridPoints_length {α : Type} (m : SearchSpace α) :
    (gridPoints m).length = (m.map (fun p => p.2.length)).prod := by
  induction m with
  | nil => rfl
  | cons p rest ih =>
      obtain ⟨n, vs⟩ := p
      simp [gridPoints, List.length_flatMap, Function.comp_def, ih, Nat.mul_comm]

theorem gridPoints_nodup {α : Type} (m : SearchSpace α)
    (h : ∀ p ∈ m, p.2.Nodup) : (gridPoints m).Nodup := by
  induction m with
  | nil => simp [gridPoints]
  | cons p rest ih =>
      obtain ⟨n, vs⟩ := p
      have hrest : (gridPoints rest).Nodup :=
        ih (fun q hq => h q (List.mem_cons_of_mem _ hq))
      have hvs : vs.Nodup := h (n, vs) (List.mem_cons_self _ _)
      refine List.nodup_flatMap.2 ⟨?_, ?_⟩
      · intro v _
        exact hrest.map (fun g₁ g₂ hg => by simpa using hg)
      · refine hvs.imp ?_
        intro v v' hvv'
        intro x hx hx'
        obtain ⟨g₁, _, rfl⟩ := List.mem_map.1 hx
        obtain ⟨g₂, _, heq⟩ := List.mem_map.1 hx'
        have hheads : (n, v') = (n, v) := by
          have := congrArg (fun l => l.head?) heq
          simpa using this
        exact hvv' (congrArg Prod.snd hheads).symm

/-- Claim C1: for every hyperparameter mapping whose value sets have
cardinalities n1..nk, the Parameter Grid Generator produces exactly the
product n1*...*nk Grid Points, with no duplicate Grid Point in the output. -/
theorem grid_generator_count_and_nodup {α : Type} (m : SearchSpace α)
    (h : ∀ p ∈ m, p.2.Nodup) :
    (gridPoints m).length = (m.map (fun p => p.2.length)).prod ∧
      (gridPoints m).Nodup :=
  ⟨gridPoints_length m, gridPoints_nodup m h⟩

/-- Witness for C1 at the notebook's concrete search space: 5 learning rates
and 1 image max size give exactly 5 grid points, with no duplicates. -/
theorem grid_generator_count_and_nodup_witness :
    (∀ p ∈ notebookSearchSpace, p.2.Nodup) ∧
      ((gridPoints notebookSearchSpace).length =
          (notebookSearchSpace.map (fun p => p.2.length)).prod ∧
        (gridPoints notebookSearchSpace).Nodup) ∧
      (gridPoints notebookSearchSpace).length = 5 := by
  have h : ∀ p ∈ notebookSearchSpace, p.2.Nodup := by
    intro p hp
    simp only [notebookSearchSpace, LEARNING_RATES, IM_MAX_SIZES,
      List.mem_cons, List.mem_singleton] at hp
    rcases hp with rfl | rfl | hp
    · norm_num
    · norm_num
    · simp at hp
  exact ⟨h, grid_generator_count_and_nodup notebookSearchSpace h, by rfl⟩

/-- Claim C7: the Parameter Grid Generator is deterministic: two invocations
with the same input mapping produce the same sequence of Grid Points in the
same order.  (The generator is embedded as a pure function, so it has no side
effects by construction.) -/
theorem grid_generator_deterministic {α : Type} (m₁ m₂ : SearchSpace α)
    (h : m₁ = m₂) : gridPoints m₁ = gridPoints m₂ := by rw [h]

/-- Witness for C7 at the notebook's concrete search space. -/
theorem grid_generator_deterministic_witness :
    gridPoints notebookSearchSpace = gridPoints notebookSearchSpace :=
  grid_generator_deterministic notebookSearchSpace notebookSearchSpace rfl

/-! ### Run records and the Result Aggregator

Modelled from the spec: a Run Record carries an identifier, a status among
Queued/Running/Completed/Failed, and a reported metric value that is optional
until completion.  The Result Aggregator (the service behind
`get_best_run_by_primary_metric`) filters to Completed records and selects
the extremum of the primary metric per the configured goal, preferring the
earliest-submitted record on a tie. -/

/-- Modelled from the spec: the status of a Run Record. -/
inductive RunStatus
  | Queued
  | Running
  | Completed
  | Failed
deriving DecidableEq

/-- Modelled from the spec: the configured optimization direction
(`PrimaryMetricGoal.MAXIMIZE` or `MINIMIZE`). -/
inductive Goal
  | maximize
  | minimize
deriving DecidableEq

/-- Modelled from the spec: a Run Record.  `runId` is the submission index
(records are listed in submission order), `metric` the reported primary
metric, optional until completion. -/
structure RunRecord where
  runId : Nat
  metric : Option ℚ
  status : RunStatus
deriving DecidableEq

/-- Modelled from the spec: the error taxonomy entry raised when no Completed
record exists at selection time. -/
inductive AggregationError
  | noCompletedRecords
deriving DecidableEq

/-- The metric value of a record (0 when none was reported; only Completed
records, which report a metric, take part in selection). -/
def mval (r : RunRecord) : ℚ := r.metric.getD 0

/-- `better g a b` means metric value `a` strictly improves on `b` under
goal `g`. -/
def better (g : Goal) (a b : ℚ) : Prop :=
  match g with
  | .maximize => b < a
  | .minimize => a < b

instance (g : Goal) (a b : ℚ) : Decidable (better g a b) := by
  cases g <;> (unfold better; infer_instance)

/-- Modelled from the spec: fold step of best-record selection; the incumbent
`b` is replaced only by a strictly better candidate, so the
earliest-submitted record wins ties. -/
def step (g : Goal) (b r : RunRecord) : RunRecord :=
  if better g (mval r) (mval b) then r else b

/-- Modelled from the spec: the Aggregator first filters the Run Records to
those in the Completed state. -/
def completedRecords (records : List RunRecord) : List RunRecord :=
  records.filter (fun r => r.status == RunStatus.Completed)

/-- Modelled from the spec: best-record selection
(`get_best_run_by_primary_metric`).  Raises `AggregationError` when no
Completed record exists, otherwise returns the extremum of the primary
metric over Completed records, ties broken toward the earlier-submitted
record. -/
def selectBest (g : Goal) (records : List RunRecord) :
    Except AggregationError RunRecord :=
  match completedRecords records with
  | [] => .error .noCompletedRecords
  | r :: rs => .ok (rs.foldl (step g) r)

theorem better_irrefl (g : Goal) (a : ℚ) : ¬ better g a a := by
  cases g <;> simp [better]

theorem better_asymm {g : Goal} {a b : ℚ} (h : better g a b) :
    ¬ better g b a := by
  cases g <;> simp [better] at * <;> linarith

theorem not_better_trans {g : Goal} {a b c : ℚ}
    (hab : ¬ better g a b) (hbc : ¬ better g b c) : ¬ better g a c := by
  cases g <;> simp [better] at * <;> linarith

theorem better_of_better_of_not_better {g : Goal} {a b c : ℚ}
    (hab : better g a b) (hac : ¬ better g a c) : better g c b := by
  cases g <;> simp [better] at * <;> linarith

theorem better_of_better_of_not_better_right {g : Goal} {a b c : ℚ}
    (hab : better g a b) (hcb : ¬ better g c b) : better g a c := by
  cases g <;> simp [better] at * <;> linarith

/-- Structure of the selection fold: the result occurs in `b :: rs`, every
record strictly before its occurrence is strictly worse, and no record of
`b :: rs` is strictly better than it. -/
theorem foldl_step_spec (g : Goal) (rs : List RunRecord) (b : RunRecord) :
    ∃ l₁ l₂, b :: rs = l₁ ++ rs.foldl (step g) b :: l₂ ∧
      (∀ x ∈ l₁, better g (mval (rs.foldl (step g) b)) (mval x)) ∧
      (∀ x ∈ b :: rs, ¬ better g (mval x) (mval (rs.foldl (step g) b))) := by
  induction rs generalizing b with
  | nil =>
      refine ⟨[], [], rfl, by simp, ?_⟩
      simpa using better_irrefl g (mval b)
  | cons r rs ih =>
      simp only [List.foldl_cons]
      by_cases hbr : better g (mval r) (mval b)
      · have hb' : step g b r = r := if_pos hbr
        rw [hb']
        obtain ⟨l₁, l₂, hdecomp, hworse, hopt⟩ := ih r
        have hresb : better g (mval (rs.foldl (step g) r)) (mval b) :=
          better_of_better_of_not_better hbr
            (hopt r (List.mem_cons_self _ _))
        refine ⟨b :: l₁, l₂, ?_, ?_, ?_⟩
        · simpa [List.cons_append] using congrArg (fun l => b :: l) hdecomp
        · intro x hx
          rcases List.mem_cons.1 hx with rfl | hx
          · exact hresb
          · exact hworse x hx
        · intro x hx
          rcases List.mem_cons.1 hx with rfl | hx
          · exact better_asymm hresb
          · exact hopt x hx
      · have hb' : step g b r = b := if_neg hbr
        rw [hb']
        obtain ⟨l₁, l₂, hdecomp, hworse, hopt⟩ := ih b
        cases l₁ with
        | nil =>
            have hres : b = rs.foldl (step g) b ∧ rs = l₂ := by
              simpa using hdecomp
            refine ⟨[], r :: rs, ?_, by simp, ?_⟩
            · simp [← hres.1]
            · intro x hx
              rcases List.mem_cons.1 hx with rfl | hx
              · exact hopt x (List.mem_cons_self _ _)
              · rcases List.mem_cons.1 hx with rfl | hx
                · rw [← hres.1]; exact hbr
                · exact hopt x (List.mem_cons_of_mem _ hx)
        | cons y t =>
            have hyb : b = y ∧ rs = t ++ rs.foldl (step g) b :: l₂ := by
              simpa using hdecomp
            have hresb : better g (mval (rs.foldl (step g) b)) (mval b) := by
              have := hworse y (List.mem_cons_self _ _)
              rwa [← hyb.1] at this
            have hresr : better g (mval (rs.foldl (step g) b)) (mval r) :=
              better_of_better_of_not_better_right hresb hbr
            refine ⟨b :: r :: t, l₂, ?_, ?_, ?_⟩
            · conv_lhs => rw [hyb.2]
              simp
            · intro x hx
              rcases List.mem_cons.1 hx with rfl | hx
              · exact hresb
              · rcases List.mem_cons.1 hx with rfl | hx
                · exact hresr
                · exact hworse x (List.mem_cons_of_mem _ hx)
            · intro x hx
              rcases List.mem_cons.1 hx with rfl | hx
              · exact better_asymm hresb
              · rcases List.mem_cons.1 hx with rfl | hx
                · exact better_asymm hresr
                · exact hopt x (List.mem_cons_of_mem _ hx)

theorem mem_completedRecords {records : List RunRecord} {x : RunRecord} :
    x ∈ completedRecords records ↔ x ∈ records ∧ x.status = .Completed := by
  simp [completedRecords, List.mem_filter]

theorem selectBest_ok_spec {g : Goal} {records : List RunRecord}
    {r : RunRecord} (h : selectBest g records = .ok r) :
    ∃ l₁ l₂, completedRecords records = l₁ ++ r :: l₂ ∧
      (∀ x ∈ l₁, better g (mval r) (mval x)) ∧
      (∀ x ∈ completedRecords records, ¬ better g (mval x) (mval r)) := by
  cases hc : completedRecords records with
  | nil => simp [selectBest, hc] at h
  | cons c cs =>
      have hr : cs.foldl (step g) c = r := by
        simpa [selectBest, hc] using h
      obtain ⟨l₁, l₂, hdecomp, hworse, hopt⟩ := foldl_step_spec g cs c
      rw [hr] at hdecomp hworse hopt
      exact ⟨l₁, l₂, hdecomp, hworse, hopt⟩

/-- Run Records matching the notebook's recorded sweep: five Completed child
runs with primary metrics 0.47, 0.74, 0.83, 0.88, 0.89 in submission order. -/
def exampleRecords : List RunRecord :=
  [⟨0, some (47/100), .Completed⟩, ⟨1, some (74/100), .Completed⟩,
   ⟨2, some (83/100), .Completed⟩, ⟨3, some (88/100), .Completed⟩,
   ⟨4, some (89/100), .Completed⟩]

/-- Claim C2: with goal maximize, the Result Aggregator filters to Completed
records and returns a record whose primary metric is the maximum over all
Completed records. -/
theorem aggregator_maximize_selects_max (records : List RunRecord)
    (r : RunRecord) (h : selectBest .maximize records = .ok r) :
    r ∈ records ∧ r.status = .Completed ∧
      ∀ r' ∈ records, r'.status = .Completed → mval r' ≤ mval r := by
  obtain ⟨l₁, l₂, hdecomp, _, hopt⟩ := selectBest_ok_spec h
  have hrmem : r ∈ completedRecords records := by
    rw [hdecomp]; exact List.mem_append_right _ (List.mem_cons_self _ _)
  obtain ⟨hr₁, hr₂⟩ := mem_completedRecords.1 hrmem
  refine ⟨hr₁, hr₂, fun r' hr' hc' => ?_⟩
  have := hopt r' (mem_completedRecords.2 ⟨hr', hc'⟩)
  simpa [better, not_lt] using this

/-- Witness for C2: on the notebook's recorded metrics the maximize goal
selects the record with metric 0.89 (the last-submitted run). -/
theorem aggregator_maximize_selects_max_witness :
    selectBest .maximize exampleRecords =
        .ok ⟨4, some (89/100), .Completed⟩ ∧
      mval ⟨4, some (89/100), .Completed⟩ = 89/100 ∧
      (⟨4, some (89/100), .Completed⟩ : RunRecord) ∈ exampleRecords ∧
      (⟨4, some (89/100), .Completed⟩ : RunRecord).status =
        RunStatus.Completed ∧
      ∀ r' ∈ exampleRecords, r'.status = .Completed →
        mval r' ≤ mval ⟨4, some (89/100), .Completed⟩ := by
  have h : selectBest .maximize exampleRecords =
      .ok ⟨4, some (89/100), .Completed⟩ := by
    norm_num [selectBest, completedRecords, exampleRecords, step, better,
      mval, List.filter, List.foldl]
  obtain ⟨h₁, h₂, h₃⟩ := aggregator_maximize_selects_max exampleRecords _ h
  exact ⟨h, by norm_num [mval], h₁, h₂, h₃⟩

/-- Claim C3: with goal minimize, over the same records, the Result
Aggregator returns a record whose primary metric is the minimum over all
Completed records. -/
theorem aggregator_minimize_selects_min (records : List RunRecord)
    (r : RunRecord) (h : selectBest .minimize records = .ok r) :
    r ∈ records ∧ r.status = .Completed ∧
      ∀ r' ∈ records, r'.status = .Completed → mval r ≤ mval r' := by
  obtain ⟨l₁, l₂, hdecomp, _, hopt⟩ := selectBest_ok_spec h
  have hrmem : r ∈ completedRecords records := by
    rw [hdecomp]; exact List.mem_append_right _ (List.mem_cons_self _ _)
  obtain ⟨hr₁, hr₂⟩ := mem_completedRecords.1 hrmem
  refine ⟨hr₁, hr₂, fun r' hr' hc' => ?_⟩
  have := hopt r' (mem_completedRecords.2 ⟨hr', hc'⟩)
  simpa [better, not_lt] using this

/-- Witness for C3: on the notebook's recorded metrics the minimize goal
selects the record with metric 0.47 (the first-submitted run). -/
theorem aggregator_minimize_selects_min_witness :
    selectBest .minimize exampleRecords =
        .ok ⟨0, some (47/100), .Completed⟩ ∧
      mval ⟨0, some (47/100), .Completed⟩ = 47/100 ∧
      (⟨0, some (47/100), .Completed⟩ : RunRecord) ∈ exampleRecords ∧
      ∀ r' ∈ exampleRecords, r'.status = .Completed →
        mval ⟨0, some (47/100), .Completed⟩ ≤ mval r' := by
  have h : selectBest .minimize exampleRecords =
      .ok ⟨0, some (47/100), .Completed⟩ := by
    norm_num [selectBest, completedRecords, exampleRecords, step, better,
      mval, List.filter, List.foldl]
  obtain ⟨h₁, _, h₃⟩ := aggregator_minimize_selects_min exampleRecords _ h
  exact ⟨h, by norm_num [mval], h₁, h₃⟩

/-- Claim C4: when no Completed Run Record exists at selection time (for
example, every Run Record is Failed), the Result Aggregator raises an
`AggregationError` instead of returning a best record. -/
theorem aggregator_no_completed_error (g : Goal) (records : List RunRecord)
    (h : ∀ r ∈ records, r.status ≠ RunStatus.Completed) :
    selectBest g records = .error .noCompletedRecords := by
  have hc : completedRecords records = [] := by
    simp only [completedRecords, List.filter_eq_nil_iff]
    intro r hr
    simpa using h r hr
  simp [selectBest, hc]

/-- All-Failed Run Records (two failed submissions, no metric reported). -/
def allFailedRecords : List RunRecord :=
  [⟨0, none, .Failed⟩, ⟨1, none, .Failed⟩]

/-- Witness for C4: a sweep whose Run Records are all Failed makes selection
return the `AggregationError`. -/
theorem aggregator_no_completed_error_witness :
    (∀ r ∈ allFailedRecords, r.status ≠ RunStatus.Completed) ∧
      selectBest .maximize allFailedRecords = .error .noCompletedRecords := by
  have h : ∀ r ∈ allFailedRecords, r.status ≠ RunStatus.Completed := by
    decide
  exact ⟨h, aggregator_no_completed_error .maximize allFailedRecords h⟩

/-- Claim C6: if two Run Records tie on the primary metric, the Result
Aggregator selects the record submitted earlier (records are listed in
submission order, with `runId` monotone in that order). -/
theorem aggregator_tie_prefers_earliest (g : Goal)
    (records : List RunRecord) (r r' : RunRecord)
    (hsorted : records.Pairwise (fun a b => a.runId ≤ b.runId))
    (h : selectBest g records = .ok r)
    (hr' : r' ∈ records) (hc' : r'.status = RunStatus.Completed)
    (htie : mval r' = mval r) : r.runId ≤ r'.runId := by
  obtain ⟨l₁, l₂, hdecomp, hworse, _⟩ := selectBest_ok_spec h
  have hsc : (completedRecords records).Pairwise
      (fun a b => a.runId ≤ b.runId) :=
    List.Pairwise.sublist (List.filter_sublist records) hsorted
  have hmem : r' ∈ completedRecords records :=
    mem_completedRecords.2 ⟨hr', hc'⟩
  rw [hdecomp] at hmem hsc
  rcases List.mem_append.1 hmem with hmem₁ | hmem₂
  · exfalso
    have := hworse r' hmem₁
    rw [htie] at this
    exact better_irrefl g (mval r) this
  · rcases List.mem_cons.1 hmem₂ with rfl | hmem₂
    · exact le_refl _
    · have := (List.pairwise_append.1 hsc).2.1
      exact (List.pairwise_cons.1 this).1 r' hmem₂

/-- Run Records with a tie on the primary metric. -/
def tieRecords : List RunRecord :=
  [⟨0, some 1, .Completed⟩, ⟨1, some 1, .Completed⟩]

/-- Witness for C6: with two Completed records tying on the metric, the
earlier-submitted record (runId 0) is selected, so its id is at most the
other's. -/
theorem aggregator_tie_prefers_earliest_witness :
    tieRecords.Pairwise (fun a b => a.runId ≤ b.runId) ∧
      selectBest .maximize tieRecords = .ok ⟨0, some 1, .Completed⟩ ∧
      (⟨1, some 1, .Completed⟩ : RunRecord) ∈ tieRecords ∧
      mval ⟨1, some 1, .Completed⟩ = mval ⟨0, some 1, .Completed⟩ ∧
      (⟨0, some 1, .Completed⟩ : RunRecord).runId ≤
        (⟨1, some 1, .Completed⟩ : RunRecord).runId := by
  have hsorted : tieRecords.Pairwise (fun a b => a.runId ≤ b.runId) := by
    simp [tieRecords]
  have h : selectBest .maximize tieRecords = .ok ⟨0, some 1, .Completed⟩ := by
    norm_num [selectBest, completedRecords, tieRecords, step, better, mval,
      List.filter, List.foldl]
  have hmem : (⟨1, some 1, .Completed⟩ : RunRecord) ∈ tieRecords := by
    simp [tieRecords]
  have htie : mval ⟨1, some 1, .Completed⟩ = mval ⟨0, some 1, .Completed⟩ := by
    norm_num [mval]
  exact ⟨hsorted, h, hmem, htie,
    aggregator_tie_prefers_earliest .maximize tieRecords _ _ hsorted h hmem
      rfl htie⟩

/-! ### Run Dispatcher concurrency

Modelled from the spec: the Dispatcher submits jobs non-blockingly (each
submission appends a Queued record), the external service moves a Queued
record to Running only while fewer than `C` records are Running, Running
records finish as Completed or Failed, and a submission failure marks a
Queued record Failed.  A sweep state is the list of statuses of the records
submitted so far, in submission order. -/

/-- Number of records currently in the Running state. -/
def countRunning (s : List RunStatus) : Nat :=
  s.count RunStatus.Running

/-- Modelled from the spec: one step of the dispatch/execution system with
concurrency limit `C`. -/
inductive DispatchStep (C : Nat) : List RunStatus → List RunStatus → Prop
  | submit (s : List RunStatus) :
      DispatchStep C s (s ++ [RunStatus.Queued])
  | start (l₁ l₂ : List RunStatus) :
      countRunning (l₁ ++ RunStatus.Queued :: l₂) < C →
      DispatchStep C (l₁ ++ RunStatus.Queued :: l₂)
        (l₁ ++ RunStatus.Running :: l₂)
  | complete (l₁ l₂ : List RunStatus) :
      DispatchStep C (l₁ ++ RunStatus.Running :: l₂)
        (l₁ ++ RunStatus.Completed :: l₂)
  | fail (l₁ l₂ : List RunStatus) :
      DispatchStep C (l₁ ++ RunStatus.Running :: l₂)
        (l₁ ++ RunStatus.Failed :: l₂)
  | submitFailed (l₁ l₂ : List RunStatus) :
      DispatchStep C (l₁ ++ RunStatus.Queued :: l₂)
        (l₁ ++ RunStatus.Failed :: l₂)

/-- States of the sweep reachable from the empty initial state (before any
submission), for concurrency limit `C`. -/
def DispatchReachable (C : Nat) (s : List RunStatus) : Prop :=
  Relation.ReflTransGen (DispatchStep C) [] s

theorem countRunning_append (s t : List RunStatus) :
    countRunning (s ++ t) = countRunning s + countRunning t := by
  simp [countRunning, List.count_append]

/-- Each dispatch step keeps the number of Running records at most `C`. -/
theorem dispatchStep_preserves_bound {C : Nat} {s t : List RunStatus}
    (hst : DispatchStep C s t) (hs : countRunning s ≤ C) :
    countRunning t ≤ C := by
  cases hst with
  | submit s =>
      simpa [countRunning_append, countRunning, List.count_cons] using hs
  | start l₁ l₂ hlt =>
      simp only [countRunning_append, countRunning, List.count_cons,
        List.count_nil] at hlt ⊢
      simp_all
      omega
  | complete l₁ l₂ =>
      simp only [countRunning_append, countRunning, List.count_cons,
        List.count_nil] at hs ⊢
      simp_all
      omega
  | fail l₁ l₂ =>
      simp only [countRunning_append, countRunning, List.count_cons,
        List.count_nil] at hs ⊢
      simp_all
      omega
  | submitFailed l₁ l₂ =>
      simp only [countRunning_append, countRunning, List.count_cons,
        List.count_nil] at hs ⊢
      simp_all

/-- Claim C5: for every concurrency limit C ≥ 1 and every reachable sweep
state (hence every input sequence of Grid Points and any interleaving of
submissions, starts and finishes), at most C Run Records are simultaneously
in the Running state. -/
theorem dispatcher_concurrency_bound (C : Nat) (hC : 1 ≤ C)
    (s : List RunStatus) (h : DispatchReachable C s) :
    countRunning s ≤ C := by
  induction h with
  | refl => simp [countRunning]
  | tail _ hstep ih => exact dispatchStep_preserves_bound hstep ih

/-- Witness for C5: with C = 1, the state reached by submitting one grid
point and starting its job has at most one Running record. -/
theorem dispatcher_concurrency_bound_witness :
    (1 ≤ 1 ∧ DispatchReachable 1 [RunStatus.Running]) ∧
      countRunning [RunStatus.Running] ≤ 1 := by
  have hreach : DispatchReachable 1 [RunStatus.Running] := by
    refine Relation.ReflTransGen.tail (Relation.ReflTransGen.tail
      Relation.ReflTransGen.refl (DispatchStep.submit [])) ?_
    have hstart := DispatchStep.start (C := 1) [] []
    simp only [List.nil_append] at hstart
    exact hstart (by simp [countRunning])
  exact ⟨⟨le_refl 1, hreach⟩,
    dispatcher_concurrency_bound 1 (le_refl 1) [RunStatus.Running] hreach⟩

/-! ### The training script `train.py`

Embedded from the source the notebook writes out with `%%writefile`: the
argparse flag table, the set of names logged through `run.log`, and the
metric extraction `acc = float(detector.ap[-1])`. -/

/-- Default value of an argparse flag: argparse leaves the destination `None`
when the flag declares no default (as `--data-folder` and `--data-subfolder`
do in `train.py`). -/
inductive ArgDefault
  | noDefault
  | intVal (n : Int)
  | floatVal (q : ℚ)
deriving DecidableEq

/-- One `parser.add_argument(flag, dest=..., default=...)` line of
`train.py`. -/
structure ArgSpec where
  flag : String
  dest : String
  dflt : ArgDefault
deriving DecidableEq

/-- The argparse flag table of `train.py`, line for line. -/
def trainArgSpecs : List ArgSpec :=
  [⟨"--data-folder", "data_dir", .noDefault⟩,
   ⟨"--data-subfolder", "data_subfolder", .noDefault⟩,
   ⟨"--epochs", "epochs", .intVal 20⟩,
   ⟨"--batch_size", "batch_size", .intVal 2⟩,
   ⟨"--learning_rate", "learning_rate", .floatVal (1/10000)⟩,
   ⟨"--min_size", "min_size", .intVal 800⟩,
   ⟨"--max_size", "max_size", .intVal 1333⟩,
   ⟨"--rpn_pre_nms_top_n_train", "rpn_pre_nms_top_n_train", .intVal 2000⟩,
   ⟨"--rpn_pre_nms_top_n_test", "rpn_pre_nms_top_n_test", .intVal 1000⟩,
   ⟨"--rpn_post_nms_top_n_train", "rpn_post_nms_top_n_train", .intVal 2000⟩,
   ⟨"--rpn_post_nms_top_n_test", "rpn_post_nms_top_n_test", .intVal 1000⟩,
   ⟨"--rpn_nms_thresh", "rpn_nms_thresh", .floatVal (7/10)⟩,
   ⟨"--box_score_thresh", "box_score_thresh", .floatVal (1/20)⟩,
   ⟨"--box_nms_thresh", "box_nms_thresh", .floatVal (1/2)⟩,
   ⟨"--box_detections_per_img", "box_detections_per_img", .intVal 100⟩]

/-- The names `train.py` logs through `run.log`, in source order. -/
def trainLoggedNames : List String :=
  ["accuracy", "data_dir", "epochs", "batch_size", "learning_rate",
   "min_size", "max_size", "rpn_pre_nms_top_n_train",
   "rpn_pre_nms_top_n_test", "rpn_post_nms_top_n_train",
   "rpn_post_nms_top_n_test", "rpn_nms_thresh", "box_score_thresh",
   "box_nms_thresh", "box_detections_per_img"]

/-- Counterexample to claim C8 as stated: the data-location flag
`--data-folder` (and likewise `--data-subfolder`) is declared without a
default in `train.py`, so not every recognized flag has a stated default. -/
theorem trainArgSpecs_data_folder_lacks_default :
    (⟨"--data-folder", "data_dir", ArgDefault.noDefault⟩ : ArgSpec)
        ∈ trainArgSpecs ∧
      ¬ (∀ a ∈ trainArgSpecs, a.dflt ≠ ArgDefault.noDefault) := by
  constructor
  · simp [trainArgSpecs]
  · intro h
    exact h ⟨"--data-folder", "data_dir", ArgDefault.noDefault⟩
      (by simp [trainArgSpecs]) rfl

/-- Claim C8 (amended): every CLI flag of `train.py` other than the two
data-location flags `--data-folder` and `--data-subfolder` has a stated
default value; those two are declared without a default (argparse leaves
them `None`). -/
theorem trainArgSpecs_defaults_except_data_location :
    ∀ a ∈ trainArgSpecs,
      a.flag ≠ "--data-folder" → a.flag ≠ "--data-subfolder" →
        a.dflt ≠ ArgDefault.noDefault := by
  intro a ha h₁ h₂
  simp only [trainArgSpecs, List.mem_cons, List.mem_singleton] at ha
  rcases ha with rfl | rfl | rfl | rfl | rfl | rfl | rfl | rfl | rfl | rfl
    | rfl | rfl | rfl | rfl | rfl | ha
  all_goals simp_all

/-- Witness for the amended C8, at the `--epochs` flag (stated default 20). -/
theorem trainArgSpecs_defaults_except_data_location_witness :
    ((⟨"--epochs", "epochs", ArgDefault.intVal 20⟩ : ArgSpec)
        ∈ trainArgSpecs ∧
      ("--epochs" : String) ≠ "--data-folder" ∧
      ("--epochs" : String) ≠ "--data-subfolder") ∧
      (⟨"--epochs", "epochs", ArgDefault.intVal 20⟩ : ArgSpec).dflt ≠
        ArgDefault.noDefault := by
  have hmem : (⟨"--epochs", "epochs", ArgDefault.intVal 20⟩ : ArgSpec)
      ∈ trainArgSpecs := by simp [trainArgSpecs]
  have h₁ : ("--epochs" : String) ≠ "--data-folder" := by decide
  have h₂ : ("--epochs" : String) ≠ "--data-subfolder" := by decide
  exact ⟨⟨hmem, h₁, h₂⟩,
    trainArgSpecs_defaults_except_data_location _ hmem h₁ h₂⟩

/-- Counterexample to claim C9 as stated: `train.py` receives
`--data-subfolder` (destination `data_subfolder`) on its command line and
uses it to locate the data, but never logs it, so not every received
parameter is echoed. -/
theorem trainLog_misses_data_subfolder :
    ("data_subfolder" ∈ trainArgSpecs.map (fun a => a.dest)) ∧
      ("data_subfolder" ∉ trainLoggedNames) ∧
      ¬ (trainLoggedNames.count "accuracy" = 1 ∧
          ∀ d ∈ trainArgSpecs.map (fun a => a.dest), d ∈ trainLoggedNames) := by
  refine ⟨by simp [trainArgSpecs], by decide, fun h => ?_⟩
  exact absurd (h.2 "data_subfolder" (by simp [trainArgSpecs])) (by decide)

/-- Claim C9 (amended): on completion `train.py` logs exactly one primary
metric under the fixed name "accuracy", and echoes every hyperparameter it
received on its command line except `data_subfolder`, which is used to
locate the data but never logged. -/
theorem trainLog_accuracy_once_and_echoes_params :
    trainLoggedNames.count "accuracy" = 1 ∧
      ∀ d ∈ trainArgSpecs.map (fun a => a.dest),
        d ≠ "data_subfolder" → d ∈ trainLoggedNames := by
  refine ⟨by decide, ?_⟩
  intro d hd hne
  simp only [trainArgSpecs, List.map_cons, List.map_nil, List.mem_cons,
    List.mem_singleton] at hd
  rcases hd with rfl | rfl | rfl | rfl | rfl | rfl | rfl | rfl | rfl | rfl
    | rfl | rfl | rfl | rfl | rfl | hd
  all_goals simp_all [trainLoggedNames]

/-- Witness for the amended C9, at the `epochs` parameter. -/
theorem trainLog_accuracy_once_and_echoes_params_witness :
    (("epochs" ∈ trainArgSpecs.map (fun a => a.dest)) ∧
        ("epochs" : String) ≠ "data_subfolder") ∧
      trainLoggedNames.count "accuracy" = 1 ∧
      "epochs" ∈ trainLoggedNames := by
  have hmem : "epochs" ∈ trainArgSpecs.map (fun a => a.dest) := by
    simp [trainArgSpecs]
  have hne : ("epochs" : String) ≠ "data_subfolder" := by decide
  exact ⟨⟨hmem, hne⟩,
    trainLog_accuracy_once_and_echoes_params.1,
    trainLog_accuracy_once_and_echoes_params.2 "epochs" hmem hne⟩

/-! ### Metric extraction from the per-epoch AP list

`train.py` runs `detector.fit(params["epochs"], ...)`, after which
`detector.ap` holds the average precision after each epoch (one entry per
trained epoch), and extracts `acc = float(detector.ap[-1])`. -/

/-- Embedded from `acc = float(detector.ap[-1])`: Python's `[-1]` indexing
returns the last element and raises `IndexError` on the empty list, so the
extraction is partial. -/
def reportedAccuracy (ap : List ℚ) : Option ℚ :=
  ap.getLast?

/-- Claim C10: given the per-epoch AP list (one entry per trained epoch), the
reported primary metric is the average precision after the final epoch; for
an epoch count of 0 the AP list is empty, its indexing fails, and no metric
is reported. -/
theorem reported_metric_is_final_epoch_ap (epochs : Nat) (ap : List ℚ)
    (hlen : ap.length = epochs) :
    (epochs = 0 → reportedAccuracy ap = none) ∧
      (0 < epochs → ∃ h : ap ≠ [],
        reportedAccuracy ap = some (ap.getLast h)) := by
  constructor
  · intro h0
    have : ap = [] := List.length_eq_zero.1 (hlen.trans h0)
    simp [reportedAccuracy, this]
  · intro hpos
    have hne : ap ≠ [] := by
      intro h
      rw [h] at hlen
      simp at hlen
      omega
    exact ⟨hne, List.getLast?_eq_getLast ap hne⟩

/-- Witness for C10 with two trained epochs (AP 0.5 then 0.75): the reported
metric is 0.75, the AP after the final epoch. -/
theorem reported_metric_is_final_epoch_ap_witness :
    (([1/2, 3/4] : List ℚ).length = 2) ∧
      (0 < 2 → ∃ h : ([1/2, 3/4] : List ℚ) ≠ [],
        reportedAccuracy [1/2, 3/4] = some (([1/2, 3/4] : List ℚ).getLast h)) ∧
      reportedAccuracy ([1/2, 3/4] : List ℚ) = some (3/4) := by
  have hlen : (([1/2, 3/4] : List ℚ)).length = 2 := by rfl
  refine ⟨hlen, (reported_metric_is_final_epoch_ap 2 [1/2, 3/4] hlen).2, ?_⟩
  simp [reportedAccuracy]
